import Mathlib

/-!
# SetCalc — verification of the core calculation units

Shallow embedding of the computational core of the `setcalc` repository:

* `getPct`, `getRepsFromPct` — the Berger effort-to-load conversion and its
  inverse (`src/calc.js`);
* the weight-calculation pipeline of the `calculate` orchestrator as
  documented in the repository (CLAUDE.md, "Weight Calculation with
  Equipment" excerpt): `e1RM`, `totalOutputWeight`, `outputWeight`;
* the rounding helpers `roundToIncrement` and `roundToEnumerated`
  (`src/utils.js`), with JavaScript `Math.round` embedded as
  "floor of x + 1/2" (round half toward +infinity);
* the equipment catalog `EQUIPMENT_CONFIG`.

JavaScript numbers are embedded as real numbers; `Math.exp`, `Math.log`,
`Math.abs`, `Math.max`, `Math.floor` become their real counterparts.
-/

noncomputable section

/-- `getPct` from `src/calc.js`:
`repsInReserve = 10 - rpe; effectiveReps = reps + repsInReserve;`
`return 100 * Math.exp(0.0262 * (effectiveReps - 1))`. -/
def getPct (reps rpe : ℝ) : ℝ :=
  100 * Real.exp (0.0262 * ((reps + (10 - rpe)) - 1))

/-- `getRepsFromPct` from `src/calc.js`:
`repsInReserve = 10 - rpe; effectiveReps = 1 + Math.log(pct / 100) / 0.0262;`
`return Math.max(0, effectiveReps - repsInReserve)`. -/
def getRepsFromPct (pct rpe : ℝ) : ℝ :=
  max 0 ((1 + Real.log (pct / 100) / 0.0262) - (10 - rpe))

/-- Step of the documented weight-mode calculation (CLAUDE.md excerpt):
`const refTotalWeight = refWeight + baseWeight;`
`const e1RM = refTotalWeight * refPct / 100;` with
`refPct = getPct(refReps, refRPE)`. -/
def e1RM (refWeight baseWeight refReps refRPE : ℝ) : ℝ :=
  (refWeight + baseWeight) * getPct refReps refRPE / 100

/-- Step of the documented weight-mode calculation (CLAUDE.md excerpt):
`const totalOutputWeight = e1RM * 100 / targetPct;` with
`targetPct = getPct(targetReps, targetRPE)`. -/
def totalOutputWeight (refWeight baseWeight refReps refRPE targetReps targetRPE : ℝ) : ℝ :=
  e1RM refWeight baseWeight refReps refRPE * 100 / getPct targetReps targetRPE

/-- Step of the documented weight-mode calculation (CLAUDE.md excerpt):
`const outputWeight = totalOutputWeight - baseWeight;`. -/
def outputWeight (refWeight baseWeight refReps refRPE targetReps targetRPE : ℝ) : ℝ :=
  totalOutputWeight refWeight baseWeight refReps refRPE targetReps targetRPE - baseWeight

/-- The estimated-max formula exactly as the spec's section 4.4 step 4 words
it: `estimatedMax = refTotalWeight * 100 / refPct`.  Stated only to be
compared against the source's `e1RM`. -/
def spec_estimatedMax (refWeight baseWeight refReps refRPE : ℝ) : ℝ :=
  (refWeight + baseWeight) * 100 / getPct refReps refRPE

/-- The target-total-weight formula exactly as the spec's section 4.4 step 6
words it: `targetTotalWeight = estimatedMax * targetPct / 100`.  Stated only
to be compared against the source's `totalOutputWeight`. -/
def spec_targetTotalWeight (refWeight baseWeight refReps refRPE targetReps targetRPE : ℝ) : ℝ :=
  spec_estimatedMax refWeight baseWeight refReps refRPE * getPct targetReps targetRPE / 100

/-- `getPct` is strictly positive everywhere: it is `100 * exp _`. -/
lemma getPct_pos (reps rpe : ℝ) : 0 < getPct reps rpe := by
  unfold getPct
  exact mul_pos (by norm_num) (Real.exp_pos _)

/-- In exact real arithmetic the inverse conversion undoes the forward
conversion precisely, for any non-negative rep count. -/
lemma roundtrip_exact (r e : ℝ) (hr : 0 ≤ r) :
    getRepsFromPct (getPct r e) e = r := by
  have h100 : (100 : ℝ) ≠ 0 := by norm_num
  have hK : (0.0262 : ℝ) ≠ 0 := by norm_num
  unfold getPct getRepsFromPct
  rw [mul_comm (100 : ℝ), mul_div_assoc, div_self h100, mul_one, Real.log_exp,
    mul_comm (0.0262 : ℝ), mul_div_assoc, div_self hK, mul_one]
  rw [show 1 + (r + (10 - e) - 1) - (10 - e) = r by ring]
  exact max_eq_right hr

/-- C1: for every rep count `r ≥ 0` and every effort `e` in `(0, 10]`, the
inverse conversion undoes the forward conversion:
`getRepsFromPct (getPct r e) e` is within `1e-6` of `r` (in the real-number
embedding the round trip is in fact exact). -/
theorem C1_round_trip (r e : ℝ) (hr : 0 ≤ r) (he₁ : 0 < e) (he₂ : e ≤ 10) :
    |getRepsFromPct (getPct r e) e - r| ≤ 1e-6 := by
  rw [roundtrip_exact r e hr, sub_self, abs_zero]
  norm_num

/-- Witness for C1 at `r = 3`, `e = 8`. -/
theorem C1_round_trip_witness :
    (0 : ℝ) ≤ 3 ∧ (0 : ℝ) < 8 ∧ (8 : ℝ) ≤ 10 ∧
      |getRepsFromPct (getPct 3 8) 8 - 3| ≤ 1e-6 :=
  ⟨by norm_num, by norm_num, by norm_num,
    C1_round_trip 3 8 (by norm_num) (by norm_num) (by norm_num)⟩

/-- C7: the inverse conversion never returns a negative result — the source
clamps with `Math.max(0, ...)`, so `getRepsFromPct pct rpe ≥ 0` for all
inputs. -/
theorem C7_nonneg (pct rpe : ℝ) : 0 ≤ getRepsFromPct pct rpe :=
  le_max_left 0 _

/-- C9: for fixed reps, the forward conversion is strictly decreasing in
effort: `e₁ < e₂` (both in `(0, 10]`) implies
`getPct r e₂ < getPct r e₁`. -/
theorem C9_effort_antitone (r e₁ e₂ : ℝ) (h₁ : 0 < e₁) (h₁₂ : e₁ < e₂) (h₂ : e₂ ≤ 10) :
    getPct r e₂ < getPct r e₁ := by
  unfold getPct
  have harg : (0.0262 : ℝ) * ((r + (10 - e₂)) - 1) < 0.0262 * ((r + (10 - e₁)) - 1) := by
    have : (r + (10 - e₂)) - 1 < (r + (10 - e₁)) - 1 := by linarith
    exact mul_lt_mul_of_pos_left this (by norm_num)
  exact mul_lt_mul_of_pos_left (Real.exp_lt_exp.mpr harg) (by norm_num)

/-- Witness for C9 at `r = 5`, `e₁ = 7`, `e₂ = 9`. -/
theorem C9_effort_antitone_witness :
    (0 : ℝ) < 7 ∧ (7 : ℝ) < 9 ∧ (9 : ℝ) ≤ 10 ∧ getPct 5 9 < getPct 5 7 :=
  ⟨by norm_num, by norm_num, by norm_num,
    C9_effort_antitone 5 7 9 (by norm_num) (by norm_num) (by norm_num)⟩

/-- C10: `getPct` is strictly positive for every real input (it is
`100 * exp _`), hence never zero; the calculator's divisions by the
reference and target percentages therefore never divide by zero. -/
theorem C10_pct_pos_ne_zero (reps rpe : ℝ) :
    0 < getPct reps rpe ∧ getPct reps rpe ≠ 0 :=
  ⟨getPct_pos reps rpe, (getPct_pos reps rpe).ne'⟩

/-- The `/100` and `*100` of the documented pipeline cancel: the computed
target total weight is `refTotalWeight * refPct / targetPct`. -/
lemma totalOutputWeight_closed (refW base refReps refRPE tReps tRPE : ℝ) :
    totalOutputWeight refW base refReps refRPE tReps tRPE
      = (refW + base) * getPct refReps refRPE / getPct tReps tRPE := by
  unfold totalOutputWeight e1RM
  rw [div_mul_cancel₀ _ (by norm_num : (100 : ℝ) ≠ 0)]

lemma getPct_five_eight : getPct 5 8 = 100 * Real.exp 0.1572 := by
  unfold getPct
  norm_num

lemma getPct_eight_eight : getPct 8 8 = 100 * Real.exp 0.2358 := by
  unfold getPct
  norm_num

lemma totalOut_C2 : totalOutputWeight 100 0 5 8 8 8 = 100 * Real.exp (-0.0786) := by
  rw [totalOutputWeight_closed, getPct_five_eight, getPct_eight_eight]
  have hadd : Real.exp (-0.0786) * Real.exp 0.2358 = Real.exp 0.1572 := by
    rw [← Real.exp_add]
    norm_num
  have hne : (100 : ℝ) * Real.exp 0.2358 ≠ 0 :=
    (mul_pos (by norm_num) (Real.exp_pos _)).ne'
  rw [div_eq_iff hne]
  linear_combination (-10000 : ℝ) * hadd

lemma out_C2 : outputWeight 100 0 5 8 8 8 = 100 * Real.exp (-0.0786) := by
  unfold outputWeight
  rw [totalOut_C2]
  ring

lemma expNeg_lb : (0.9214 : ℝ) ≤ Real.exp (-0.0786) := by
  have h := Real.add_one_le_exp (-0.0786 : ℝ)
  linarith

lemma expNeg_ub : Real.exp (-0.0786) < 0.928 := by
  have h := Real.add_one_le_exp (0.0786 : ℝ)
  have hp : (0 : ℝ) < Real.exp 0.0786 := Real.exp_pos _
  rw [Real.exp_neg]
  have h2 : (Real.exp 0.0786)⁻¹ ≤ (1.0786 : ℝ)⁻¹ :=
    inv_anti₀ (by norm_num) (by linarith)
  have h3 : ((1.0786 : ℝ))⁻¹ < 0.928 := by norm_num
  linarith

/-- C2 counterexample: with base weight 0, reference 100 lbs / 5 reps /
effort 8 and target 8 reps / effort 8, the computed exact plate weight is
`100 * exp (-0.0786) ≈ 92.44`, more than 9 lbs away from the claimed
"approximately 81 lbs". -/
theorem C2_counterexample : 9 < |outputWeight 100 0 5 8 8 8 - 81| := by
  have h := expNeg_lb
  rw [out_C2, abs_of_nonneg (by linarith)]
  linarith

/-- C2 amended: for the reference set 100 lbs / 5 reps / effort 8 and the
target 8 reps / effort 8 with base weight 0, the exact computed target plate
weight is approximately 92.4 lbs (strictly between 92 and 93), and in
particular strictly less than the reference 100 lbs (weight decreases as
reps increase at equal effort). -/
theorem C2_amended :
    92 < outputWeight 100 0 5 8 8 8 ∧ outputWeight 100 0 5 8 8 8 < 93 ∧
      outputWeight 100 0 5 8 8 8 < 100 := by
  have h1 := expNeg_lb
  have h2 := expNeg_ub
  rw [out_C2]
  exact ⟨by linarith, by linarith, by linarith⟩

lemma e1RM_C2 : e1RM 100 0 5 8 = 100 * Real.exp 0.1572 := by
  unfold e1RM
  rw [getPct_five_eight]
  ring

lemma spec_estimatedMax_C2 : spec_estimatedMax 100 0 5 8 = 100 / Real.exp 0.1572 := by
  unfold spec_estimatedMax
  rw [getPct_five_eight]
  have hE : Real.exp 0.1572 ≠ 0 := (Real.exp_pos _).ne'
  field_simp
  ring

lemma spec_targetTotal_C2 :
    spec_targetTotalWeight 100 0 5 8 8 8 = 100 * Real.exp 0.0786 := by
  unfold spec_targetTotalWeight
  rw [spec_estimatedMax_C2, getPct_eight_eight]
  have hadd : Real.exp 0.0786 * Real.exp 0.1572 = Real.exp 0.2358 := by
    rw [← Real.exp_add]
    norm_num
  have hE : Real.exp 0.1572 ≠ 0 := (Real.exp_pos _).ne'
  field_simp
  linear_combination (-10000 : ℝ) * hadd

/-- C3 counterexample: at reference 100 lbs / 5 reps / effort 8 (base 0) and
target 8 reps / effort 8, the code's estimated max `e1RM ≈ 117` differs from
the spec's step-4 formula `≈ 85.5`, and the code's target total weight
`≈ 92.4` differs from the spec's step-6 formula `≈ 107.9`. -/
theorem C3_counterexample :
    e1RM 100 0 5 8 ≠ spec_estimatedMax 100 0 5 8 ∧
      totalOutputWeight 100 0 5 8 8 8 ≠ spec_targetTotalWeight 100 0 5 8 8 8 := by
  constructor
  · rw [e1RM_C2, spec_estimatedMax_C2]
    have h := Real.add_one_le_exp (0.1572 : ℝ)
    have hp : (0 : ℝ) < Real.exp 0.1572 := Real.exp_pos _
    intro heq
    have hlt : (100 : ℝ) / Real.exp 0.1572 < 100 := by
      rw [div_lt_iff₀ hp]
      nlinarith
    linarith
  · rw [totalOut_C2, spec_targetTotal_C2]
    have h1 := expNeg_ub
    have h2 := Real.add_one_le_exp (0.0786 : ℝ)
    intro heq
    linarith

/-- C3 amended: the code computes `estimatedMax = refTotalWeight * refPct /
100` and `targetTotalWeight = estimatedMax * 100 / targetPct` — the spec's
step-4 and step-6 formulas with the percentage factors swapped — so for
every reference set and target,
`targetTotalWeight = refTotalWeight * refPct / targetPct`. -/
theorem C3_amended (refW base refReps refRPE tReps tRPE : ℝ) :
    e1RM refW base refReps refRPE = (refW + base) * getPct refReps refRPE / 100 ∧
      totalOutputWeight refW base refReps refRPE tReps tRPE
        = e1RM refW base refReps refRPE * 100 / getPct tReps tRPE ∧
      totalOutputWeight refW base refReps refRPE tReps tRPE
        = (refW + base) * getPct refReps refRPE / getPct tReps tRPE :=
  ⟨rfl, rfl, totalOutputWeight_closed refW base refReps refRPE tReps tRPE⟩

/-- C8 counterexample: with reference plate weight 0 and base weight 0 the
step-4 "estimated max" is exactly 0 — a finite value, produced with a
strictly positive divisor — and the downstream exact output weight is
exactly 0, also finite. -/
theorem C8_counterexample :
    e1RM 0 0 5 8 = 0 ∧ 0 < getPct 5 8 ∧ outputWeight 0 0 5 8 8 8 = 0 := by
  refine ⟨by unfold e1RM; ring, getPct_pos 5 8, ?_⟩
  unfold outputWeight totalOutputWeight e1RM
  ring

/-- C8 amended: when the reference plate weight and the base weight are both
0, step 4 performs no division by zero (its divisor — the reference
percentage in the spec's reading, the literal 100 in the code — is nonzero):
the estimated max is exactly 0, and the exact total and plate target weights
are exactly 0 (finite); no exception is thrown, every function being total.
A division by the zero estimated max happens only in the later rounded-reps
recomputation. -/
theorem C8_amended (refReps refRPE tReps tRPE : ℝ) :
    getPct refReps refRPE ≠ 0 ∧ e1RM 0 0 refReps refRPE = 0 ∧
      totalOutputWeight 0 0 refReps refRPE tReps tRPE = 0 ∧
      outputWeight 0 0 refReps refRPE tReps tRPE = 0 := by
  refine ⟨(getPct_pos refReps refRPE).ne', by unfold e1RM; ring, ?_, ?_⟩
  · unfold totalOutputWeight e1RM
    ring
  · unfold outputWeight totalOutputWeight e1RM
    ring

/-- JavaScript `Math.round`: for finite arguments it returns the integer
closest to `x`, with exact halves rounded toward positive infinity —
`Math.floor(x + 0.5)`. -/
def jsRound (x : ℝ) : ℤ :=
  ⌊x + 1 / 2⌋

/-- `roundToIncrement` from `src/utils.js`:
`if (increment <= 0) return weight;`
`return Math.round(weight / increment) * increment;`. -/
def roundToIncrement (weight increment : ℝ) : ℝ :=
  if increment ≤ 0 then weight else (jsRound (weight / increment) : ℝ) * increment

/-- C4 counterexample: at weight `-12.5` with increment `5` the code returns
`-10`, which is strictly closer to zero than the weight itself — the exact
midpoint is rounded toward zero, not away from it (away from zero would be
`-15`). -/
theorem C4_counterexample :
    roundToIncrement (-(25 / 2)) 5 = -10 ∧ roundToIncrement (-(25 / 2)) 5 ≠ -15 ∧
      |roundToIncrement (-(25 / 2)) 5| < |(-(25 / 2) : ℝ)| := by
  have hval : roundToIncrement (-(25 / 2)) 5 = -10 := by
    unfold roundToIncrement jsRound
    rw [if_neg (by norm_num)]
    rw [show (-(25 / 2) : ℝ) / 5 + 1 / 2 = ((-2 : ℤ) : ℝ) by push_cast; norm_num]
    rw [Int.floor_intCast]
    norm_num
  refine ⟨hval, by rw [hval]; norm_num, ?_⟩
  rw [hval, abs_of_nonpos (by norm_num), abs_of_nonpos (by norm_num)]
  norm_num

/-- C4 amended: for every weight `w` and increment `i > 0`, nearest-increment
rounding returns `round (w / i) * i` where `round` is round-half-up (exact
midpoints go toward the higher increment, i.e. toward positive infinity;
away from zero only for non-negative weights); in particular
`roundToIncrement 112.5 5 = 115` and `roundToIncrement 112 5 = 110`. -/
theorem C4_amended (w i : ℝ) (n : ℤ) (hi : 0 < i) :
    roundToIncrement w i = (round (w / i) : ℝ) * i ∧
      roundToIncrement (((n : ℝ) + 1 / 2) * i) i = ((n : ℝ) + 1) * i ∧
      roundToIncrement 112.5 5 = 115 ∧ roundToIncrement 112 5 = 110 := by
  have hir : ¬ i ≤ 0 := not_le.mpr hi
  refine ⟨?_, ?_, ?_, ?_⟩
  · unfold roundToIncrement jsRound
    rw [if_neg hir, round_eq]
  · unfold roundToIncrement jsRound
    rw [if_neg hir, mul_div_cancel_right₀ _ hi.ne']
    rw [show ((n : ℝ) + 1 / 2) + 1 / 2 = ((n + 1 : ℤ) : ℝ) by push_cast; ring]
    rw [Int.floor_intCast]
    push_cast
    ring
  · unfold roundToIncrement jsRound
    rw [if_neg (by norm_num)]
    rw [show (112.5 : ℝ) / 5 + 1 / 2 = ((23 : ℤ) : ℝ) by push_cast; norm_num]
    rw [Int.floor_intCast]
    norm_num
  · unfold roundToIncrement jsRound
    rw [if_neg (by norm_num)]
    rw [show (112 : ℝ) / 5 + 1 / 2 = 22.9 by norm_num]
    rw [show ⌊(22.9 : ℝ)⌋ = 22 by rw [Int.floor_eq_iff]; norm_num]
    norm_num

/-- Witness for C4 amended, at `w = 112.5`, `i = 5`, `n = 22`. -/
theorem C4_amended_witness :
    (0 : ℝ) < 5 ∧
      (roundToIncrement 112.5 5 = (round ((112.5 : ℝ) / 5) : ℝ) * 5 ∧
        roundToIncrement ((((22 : ℤ) : ℝ) + 1 / 2) * 5) 5 = (((22 : ℤ) : ℝ) + 1) * 5 ∧
        roundToIncrement 112.5 5 = 115 ∧ roundToIncrement 112 5 = 110) :=
  ⟨by norm_num, C4_amended 112.5 5 22 (by norm_num)⟩

/-- A quantization rule: either a fixed weight increment or an enumerated
ascending list of available weights. -/
inductive QuantRule where
  | fixedIncrement (i : ℝ) : QuantRule
  | enumerated (ws : List ℝ) : QuantRule

/-- An equipment profile: a fixed base weight plus a quantization rule. -/
structure EquipmentProfile where
  baseWeight : ℝ
  rule : QuantRule

/-- Modelled from the spec: the current `src/utils.js` defining
`EQUIPMENT_CONFIG` is not part of the sources (the repository holds only an
older snapshot of it, without the `dumbbells_x2` and `cable_purple` rows and
with the dumbbell list stopping at 20, alongside the current unit tests that
assert the full catalog).  The catalog below follows the spec's section 4.2
table, which agrees with those tests; the caller-supplied `custom` row is
omitted since it carries no fixed data. -/
def EQUIPMENT_CONFIG : String → Option EquipmentProfile := fun key =>
  if key = "none" then some ⟨0, QuantRule.fixedIncrement 5⟩
  else if key = "smith_machine" then some ⟨25, QuantRule.fixedIncrement 5⟩
  else if key = "leg_press_45" then some ⟨167, QuantRule.fixedIncrement 5⟩
  else if key = "dumbbells" then
    some ⟨0, QuantRule.enumerated
      [3, 5, 8, 10, 12, 15, 17.5, 20, 25, 30, 35, 40, 45, 50, 55, 60, 65, 70]⟩
  else if key = "dumbbells_x2" then
    some ⟨0, QuantRule.enumerated
      [6, 10, 16, 20, 24, 30, 35, 40, 50, 60, 70, 80, 90, 100, 110, 120, 130, 140]⟩
  else if key = "cable_purple" then some ⟨0, QuantRule.fixedIncrement 2.5⟩
  else none

/-- C6: the equipment catalog holds a `dumbbells` profile with base weight 0
and the enumerated weights 3–70, and a `cable_purple` profile with base
weight 0 and increment 2.5. -/
theorem C6_catalog :
    EQUIPMENT_CONFIG ("dumbbells") = some ⟨0, QuantRule.enumerated
        [3, 5, 8, 10, 12, 15, 17.5, 20, 25, 30, 35, 40, 45, 50, 55, 60, 65, 70]⟩ ∧
      EQUIPMENT_CONFIG ("cable_purple") = some ⟨0, QuantRule.fixedIncrement 2.5⟩ :=
  ⟨rfl, rfl⟩

/-- The scanning loop of `roundToEnumerated` (`src/utils.js`): the state is
`(closest, minDiff)`; each element replaces the state only on a strict
improvement `Math.abs(weight - weights[i]) < minDiff`. -/
def nearestLoop (w : ℝ) : ℝ × ℝ → List ℝ → ℝ × ℝ
  | s, [] => s
  | (closest, minDiff), x :: xs =>
      if |w - x| < minDiff then nearestLoop w (x, |w - x|) xs
      else nearestLoop w (closest, minDiff) xs

/-- `roundToEnumerated` from `src/utils.js`:
`if (!weights || weights.length === 0) return weight;` then the scan starts
from `closest = weights[0]`, `minDiff = Math.abs(weight - closest)`. -/
def roundToEnumerated (w : ℝ) (ws : List ℝ) : ℝ :=
  match ws with
  | [] => w
  | c :: rest => (nearestLoop w (c, |w - c|) rest).1

lemma nearestLoop_nil (w : ℝ) (s : ℝ × ℝ) : nearestLoop w s [] = s := rfl

lemma nearestLoop_cons (w c d x : ℝ) (xs : List ℝ) :
    nearestLoop w (c, d) (x :: xs)
      = if |w - x| < d then nearestLoop w (x, |w - x|) xs
        else nearestLoop w (c, d) xs := rfl

lemma roundToEnumerated_cons (w c : ℝ) (rest : List ℝ) :
    roundToEnumerated w (c :: rest) = (nearestLoop w (c, |w - c|) rest).1 := rfl

/-- The scan returns either its seed or a list element. -/
lemma nearestLoop_mem (w : ℝ) (xs : List ℝ) : ∀ c : ℝ,
    (nearestLoop w (c, |w - c|) xs).1 = c ∨ (nearestLoop w (c, |w - c|) xs).1 ∈ xs := by
  induction xs with
  | nil =>
    intro c
    exact Or.inl rfl
  | cons a t ih =>
    intro c
    rw [nearestLoop_cons]
    by_cases h : |w - a| < |w - c|
    · rw [if_pos h]
      rcases ih a with h1 | h1
      · exact Or.inr (by rw [h1]; exact List.mem_cons_self a t)
      · exact Or.inr (List.mem_cons_of_mem a h1)
    · rw [if_neg h]
      rcases ih c with h1 | h1
      · exact Or.inl h1
      · exact Or.inr (List.mem_cons_of_mem a h1)

/-- The scan's result is at least as close to `w` as the seed and as every
list element. -/
lemma nearestLoop_min (w : ℝ) (xs : List ℝ) : ∀ c : ℝ,
    |w - (nearestLoop w (c, |w - c|) xs).1| ≤ |w - c| ∧
      ∀ x ∈ xs, |w - (nearestLoop w (c, |w - c|) xs).1| ≤ |w - x| := by
  induction xs with
  | nil =>
    intro c
    exact ⟨le_refl _, by simp⟩
  | cons a t ih =>
    intro c
    rw [nearestLoop_cons]
    by_cases h : |w - a| < |w - c|
    · rw [if_pos h]
      obtain ⟨h1, h2⟩ := ih a
      refine ⟨h1.trans h.le, ?_⟩
      intro x hx
      rcases List.mem_cons.mp hx with rfl | hx'
      · exact h1
      · exact h2 x hx'
    · rw [if_neg h]
      obtain ⟨h1, h2⟩ := ih c
      refine ⟨h1, ?_⟩
      intro x hx
      rcases List.mem_cons.mp hx with rfl | hx'
      · exact h1.trans (not_lt.mp h)
      · exact h2 x hx'

/-- The state only changes on a strict improvement: either the scan returns
its seed, or the result is strictly closer to `w` than the seed. -/
lemma nearestLoop_strict (w : ℝ) (xs : List ℝ) : ∀ c : ℝ,
    (nearestLoop w (c, |w - c|) xs).1 = c ∨
      |w - (nearestLoop w (c, |w - c|) xs).1| < |w - c| := by
  induction xs with
  | nil =>
    intro c
    exact Or.inl rfl
  | cons a t ih =>
    intro c
    rw [nearestLoop_cons]
    by_cases h : |w - a| < |w - c|
    · rw [if_pos h]
      right
      rcases ih a with h1 | h1
      · rw [h1]
        exact h
      · exact h1.trans h
    · rw [if_neg h]
      exact ih c

/-- On an ascending list, the scan breaks exact ties toward the lower value:
any element at the same distance from `w` as the result is `≥` the result. -/
lemma nearestLoop_tie (w : ℝ) (xs : List ℝ) : ∀ c : ℝ,
    (c :: xs).Sorted (· ≤ ·) →
      ∀ x ∈ c :: xs, |w - x| = |w - (nearestLoop w (c, |w - c|) xs).1| →
        (nearestLoop w (c, |w - c|) xs).1 ≤ x := by
  induction xs with
  | nil =>
    intro c _ x hx _
    rw [nearestLoop_nil]
    rcases List.mem_cons.mp hx with rfl | hx'
    · exact le_refl x
    · simp at hx'
  | cons a t ih =>
    intro c hsort x hx htie
    rw [List.sorted_cons] at hsort
    obtain ⟨hc, hat⟩ := hsort
    have hca : c ≤ a := hc a (List.mem_cons_self a t)
    have hct : (c :: t).Sorted (· ≤ ·) := by
      rw [List.sorted_cons]
      rw [List.sorted_cons] at hat
      exact ⟨fun b hb => hc b (List.mem_cons_of_mem a hb), hat.2⟩
    rw [nearestLoop_cons] at htie ⊢
    by_cases h : |w - a| < |w - c|
    · rw [if_pos h] at htie ⊢
      have hsort' : (a :: t).Sorted (· ≤ ·) := hat
      rcases List.mem_cons.mp hx with rfl | hx'
      · exfalso
        have hm := (nearestLoop_min w t a).1
        rw [← htie] at hm
        linarith
      · exact ih a hsort' x hx' htie
    · rw [if_neg h] at htie ⊢
      have hwc : |w - c| ≤ |w - a| := not_lt.mp h
      rcases List.mem_cons.mp hx with rfl | hx'
      · exact ih x hct x (List.mem_cons_self x t) htie
      · rcases List.mem_cons.mp hx' with rfl | hx''
        · have hm := (nearestLoop_min w t c).1
          rcases nearestLoop_strict w t c with he | hlt
          · rw [he]
            exact hca
          · exfalso
            rw [← htie] at hlt
            linarith
        · exact ih c hct x (List.mem_cons_of_mem c hx'') htie

lemma enumExample₁ : roundToEnumerated 6.5 [3, 5, 8, 10, 12, 15, 17.5, 20] = 5 := by
  norm_num [roundToEnumerated_cons, nearestLoop_cons, nearestLoop_nil,
    abs_of_nonneg, abs_of_nonpos]

lemma enumExample₂ : roundToEnumerated 25 [3, 5, 8, 10, 12, 15, 17.5, 20] = 20 := by
  norm_num [roundToEnumerated_cons, nearestLoop_cons, nearestLoop_nil,
    abs_of_nonneg, abs_of_nonpos]

/-- C5: for every weight `w` and non-empty ascending list of enumerated
weights, `roundToEnumerated` returns a list element minimizing the absolute
difference from `w`, and on an exact tie the lower value wins; in particular
`roundToEnumerated 6.5 [3,5,8,10,12,15,17.5,20] = 5` and
`roundToEnumerated 25 [3,5,8,10,12,15,17.5,20] = 20`. -/
theorem C5_nearest_enumerated (w x : ℝ) (ws : List ℝ)
    (hsort : ws.Sorted (· ≤ ·)) (hx : x ∈ ws) :
    roundToEnumerated w ws ∈ ws ∧
      |w - roundToEnumerated w ws| ≤ |w - x| ∧
      (|w - x| = |w - roundToEnumerated w ws| → roundToEnumerated w ws ≤ x) ∧
      roundToEnumerated 6.5 [3, 5, 8, 10, 12, 15, 17.5, 20] = 5 ∧
      roundToEnumerated 25 [3, 5, 8, 10, 12, 15, 17.5, 20] = 20 := by
  obtain ⟨c, rest, rfl⟩ : ∃ c rest, ws = c :: rest := by
    cases ws with
    | nil => simp at hx
    | cons c rest => exact ⟨c, rest, rfl⟩
  rw [roundToEnumerated_cons]
  refine ⟨?_, ?_, ?_, enumExample₁, enumExample₂⟩
  · rcases nearestLoop_mem w rest c with h | h
    · rw [h]
      exact List.mem_cons_self c rest
    · exact List.mem_cons_of_mem c h
  · rcases List.mem_cons.mp hx with rfl | hx'
    · exact (nearestLoop_min w rest x).1
    · exact (nearestLoop_min w rest c).2 x hx'
  · exact fun htie => nearestLoop_tie w rest c hsort x hx htie

/-- Witness for C5 at `w = 25`, `x = 20`, the dumbbell list. -/
theorem C5_nearest_enumerated_witness :
    ([3, 5, 8, 10, 12, 15, 17.5, 20] : List ℝ).Sorted (· ≤ ·) ∧
      (20 : ℝ) ∈ ([3, 5, 8, 10, 12, 15, 17.5, 20] : List ℝ) ∧
      (roundToEnumerated 25 [3, 5, 8, 10, 12, 15, 17.5, 20]
          ∈ ([3, 5, 8, 10, 12, 15, 17.5, 20] : List ℝ) ∧
        |(25 : ℝ) - roundToEnumerated 25 [3, 5, 8, 10, 12, 15, 17.5, 20]|
          ≤ |(25 : ℝ) - 20| ∧
        (|(25 : ℝ) - 20| = |(25 : ℝ) - roundToEnumerated 25 [3, 5, 8, 10, 12, 15, 17.5, 20]|
          → roundToEnumerated 25 [3, 5, 8, 10, 12, 15, 17.5, 20] ≤ 20) ∧
        roundToEnumerated 6.5 [3, 5, 8, 10, 12, 15, 17.5, 20] = 5 ∧
        roundToEnumerated 25 [3, 5, 8, 10, 12, 15, 17.5, 20] = 20) :=
  ⟨by norm_num [List.sorted_cons], by norm_num,
    C5_nearest_enumerated 25 20 [3, 5, 8, 10, 12, 15, 17.5, 20]
      (by norm_num [List.sorted_cons]) (by norm_num)⟩

end
